import Mathlib

/-!
Shallow embedding of the recurring-reminder engine of the personal_assistant
repository: the natural-language frequency parser
(`assistant/services/frequency_parser.py`: `parse`, `describe`,
`should_remind_now`) and the scheduler tick over todos carrying a reminder
config (`assistant/scheduler/jobs.py`: `check_todo_reminders`).

Modelling conventions:
* Python strings are `List Char`; lowering/stripping/regex searches are
  translated as explicit scanners with the same leftmost-match, ordered
  alternation and greedy semantics as the `re` patterns in the source.
* Instants are integer seconds since the Unix epoch; a timezone is its fixed
  offset in seconds (local wall clock = UTC + offset).  `HH:MM` time-of-day
  strings are carried as minutes after midnight of a canonical zero-padded
  rendering.
* A Python dict value for a reminder config is a record of `FP.Field` values:
  `absent` (key missing), `null` (key present holding `None`) or `val`.
* Fallible code returns `Option`: `none` models an uncaught Python exception.
-/

namespace FP

/-- Whitespace characters matched by Python `\s` / `str.strip` on ASCII text:
space, tab, newline, carriage return, vertical tab, form feed. -/
def isWsChar (c : Char) : Bool :=
  c.toNat = 32 || c.toNat = 9 || c.toNat = 10 || c.toNat = 13 ||
  c.toNat = 11 || c.toNat = 12

/-- ASCII decimal digit `0`-`9`, as matched by `\d` on ASCII text. -/
def isDigitChar (c : Char) : Bool :=
  48 ≤ c.toNat && c.toNat ≤ 57

/-- ASCII lowering, the effect of Python `str.lower` on ASCII text:
`A`-`Z` shift down into `a`-`z`. -/
def lowerChar (c : Char) : Char :=
  if 65 ≤ c.toNat && c.toNat ≤ 90 then Char.ofNat (c.toNat + 32) else c

/-- Lower every character of the text. -/
def lowerStr (l : List Char) : List Char := l.map lowerChar

/-- Does `p` occur as a leading segment of `t`? -/
def startsWithL : List Char → List Char → Bool
  | [], _ => true
  | _ :: _, [] => false
  | p :: ps, c :: cs => p = c && startsWithL ps cs

/-- Does `p` occur as a contiguous segment anywhere in `t`?  This is Python's
`p in t` on strings. -/
def containsSub (p : List Char) : List Char → Bool
  | [] => startsWithL p []
  | c :: cs => startsWithL p (c :: cs) || containsSub p cs

/-- Drop a literal from the head of the text, failing when it is not there. -/
def dropLit : List Char → List Char → Option (List Char)
  | [], t => some t
  | _ :: _, [] => none
  | p :: ps, c :: cs => if p = c then dropLit ps cs else none

/-- Remove trailing whitespace. -/
def stripEnd (l : List Char) : List Char :=
  (l.reverse.dropWhile isWsChar).reverse

/-- Python `str.strip`: remove leading and trailing whitespace. -/
def stripWs (l : List Char) : List Char :=
  stripEnd (l.dropWhile isWsChar)

/-- Numeric value of a run of ASCII digits, Python `int` on the group. -/
def natFromDigits (ds : List Char) : Nat :=
  ds.foldl (fun a c => a * 10 + (c.toNat - 48)) 0

/-- A Python dict entry: the key can be missing, present holding `None`, or
present holding a value. -/
inductive Field (α : Type) where
  | absent
  | null
  | val (a : α)
deriving DecidableEq, Repr

/-- Python `dict.get(key)`: `None` both for a missing key and a stored `None`. -/
def Field.get? {α : Type} : Field α → Option α
  | .absent => none
  | .null => none
  | .val a => some a

/-- Python `dict.get(key, d)`: the default applies only when the key is
missing; a stored `None` is returned as `None`. -/
def Field.getD? {α : Type} (f : Field α) (d : α) : Option α :=
  match f with
  | .absent => some d
  | .null => none
  | .val a => some a

/-- A daily firing window: both bounds are minutes after local midnight, the
value of a canonical `HH:MM` string. -/
structure TimeRange where
  startMin : Nat
  endMin : Nat
deriving DecidableEq, Repr

/-- A reminder configuration dict as consumed by `should_remind_now` and
`describe` and produced by `parse`. -/
structure Config where
  interval_value : Field Int
  interval_unit : Field String
  time_range : Field TimeRange
  days : Field (List String)
  enabled : Field Bool
deriving DecidableEq, Repr

/-- FrequencyParser.BUSINESS_HOURS, 09:00-17:00. -/
def BUSINESS_HOURS : TimeRange := ⟨9 * 60, 17 * 60⟩

/-- FrequencyParser.WORK_HOURS, 08:00-18:00. -/
def WORK_HOURS : TimeRange := ⟨8 * 60, 18 * 60⟩

/-- FrequencyParser.WEEKDAYS. -/
def WEEKDAYS : List String :=
  ["monday", "tuesday", "wednesday", "thursday", "friday"]

/-- FrequencyParser.WEEKEND. -/
def WEEKEND : List String := ["saturday", "sunday"]

/-- FrequencyParser.ALL_DAYS. -/
def ALL_DAYS : List String :=
  ["monday", "tuesday", "wednesday", "thursday", "friday", "saturday", "sunday"]

/-- The unit alternatives of the interval pattern
`every\s+(\d+)?\s*(hour|hours|minute|minutes|min|day|days|week|weeks)`,
in the order the regex alternation tries them. -/
def unitAlts : List (List Char) :=
  ["hour".data, "hours".data, "minute".data, "minutes".data, "min".data,
   "day".data, "days".data, "week".data, "weeks".data]

/-- The unit group of the interval pattern: the first alternative (in
alternation order) that matches at this position.  Nothing follows the group
in the pattern, so an alternative succeeds as soon as it is a leading
segment. -/
def matchUnit (cs : List Char) : Option (List Char) :=
  unitAlts.find? (fun a => startsWithL a cs)

/-- Match the interval pattern anchored at the head of the text: the literal
`every`, one or more whitespace, an optional greedy digit group, optional
whitespace, then a unit alternative.  Returns the digit group (absent when
the optional group did not participate) and the unit token. -/
def matchIntervalAt (cs : List Char) : Option (Option Nat × List Char) :=
  match dropLit "every".data cs with
  | none => none
  | some r1 =>
    if (r1.takeWhile isWsChar).isEmpty then none
    else
      let r2 := r1.dropWhile isWsChar
      let ds := r2.takeWhile isDigitChar
      let r3 := (r2.dropWhile isDigitChar).dropWhile isWsChar
      match matchUnit r3 with
      | none => none
      | some u => some (if ds.isEmpty then none else some (natFromDigits ds), u)

/-- `re.search` for the interval pattern: try each start position from the
left and return the first match. -/
def searchInterval : List Char → Option (Option Nat × List Char)
  | [] => none
  | c :: cs =>
    match matchIntervalAt (c :: cs) with
    | some r => some r
    | none => searchInterval cs

/-- Normalization of the matched unit token to its canonical plural form, the
if/elif chain following the interval match in `FrequencyParser.parse`.  An
unrecognized token leaves the unit unset (`none`). -/
def normalizeUnit (u : List Char) : Option String :=
  if u = "hour".data || u = "hours".data then some "hours"
  else if u = "minute".data || u = "minutes".data || u = "min".data then some "minutes"
  else if u = "day".data || u = "days".data then some "days"
  else if u = "week".data || u = "weeks".data then some "weeks"
  else none

/-- An `am`/`pm` marker in an explicit time range. -/
inductive Period where
  | am
  | pm
deriving DecidableEq, Repr

/-- Match `\s*(am|pm)?\s+` anchored at the head of the text (the glue between
a bound and `and` in the time-range pattern).  The branches are disjoint: a
text whose post-whitespace head is `am`/`pm` can never satisfy the emptied
group (the following literal `and` mismatches), so no further backtracking
is needed.  Returns the period and the rest after the trailing whitespace,
which must be nonempty in the `am`/`pm` case and is the tail of the leading
whitespace run (itself required nonempty) otherwise. -/
def matchPeriodGap (cs : List Char) : Option (Option Period × List Char) :=
  let r := cs.dropWhile isWsChar
  if startsWithL "am".data r then
    let r2 := r.drop 2
    if (r2.takeWhile isWsChar).isEmpty then none
    else some (some Period.am, r2.dropWhile isWsChar)
  else if startsWithL "pm".data r then
    let r2 := r.drop 2
    if (r2.takeWhile isWsChar).isEmpty then none
    else some (some Period.pm, r2.dropWhile isWsChar)
  else
    if (cs.takeWhile isWsChar).isEmpty then none
    else some (none, r)

/-- Match the tail `\s*(am|pm)?` of the time-range pattern: optional
whitespace then an optional period, with nothing required after it. -/
def matchPeriodEnd (cs : List Char) : Option Period :=
  let r := cs.dropWhile isWsChar
  if startsWithL "am".data r then some Period.am
  else if startsWithL "pm".data r then some Period.pm
  else none

/-- Match the explicit time-range pattern
`between\s+(\d+)\s*(am|pm)?\s+and\s+(\d+)\s*(am|pm)?` anchored at the head of
the text. -/
def matchBetweenAt (cs : List Char) : Option (Nat × Option Period × Nat × Option Period) :=
  match dropLit "between".data cs with
  | none => none
  | some r1 =>
    if (r1.takeWhile isWsChar).isEmpty then none
    else
      let r2 := r1.dropWhile isWsChar
      let d1 := r2.takeWhile isDigitChar
      if d1.isEmpty then none
      else
        match matchPeriodGap (r2.dropWhile isDigitChar) with
        | none => none
        | some (p1, r3) =>
          match dropLit "and".data r3 with
          | none => none
          | some r4 =>
            if (r4.takeWhile isWsChar).isEmpty then none
            else
              let r5 := r4.dropWhile isWsChar
              let d2 := r5.takeWhile isDigitChar
              if d2.isEmpty then none
              else
                some (natFromDigits d1, p1, natFromDigits d2,
                      matchPeriodEnd (r5.dropWhile isDigitChar))

/-- `re.search` for the explicit time-range pattern. -/
def searchBetween : List Char → Option (Nat × Option Period × Nat × Option Period)
  | [] => none
  | c :: cs =>
    match matchBetweenAt (c :: cs) with
    | some r => some r
    | none => searchBetween cs

/-- Conversion of one bound of an explicit range to 24-hour form: `+12` for a
`pm` hour other than 12, `12am` becomes 0, anything else is unchanged. -/
def to24 (h : Nat) : Option Period → Nat
  | some Period.pm => if h ≠ 12 then h + 12 else h
  | some Period.am => if h = 12 then 0 else h
  | none => h

/-- Text normalization at the top of `FrequencyParser.parse`:
`frequency_text.lower().strip()`. -/
def normalizeText (s : String) : List Char :=
  stripWs (lowerStr s.data)

/-- The named time-window extractor: `business hours` (or the singular, which
the plural contains) fixes the 09:00-17:00 window, `work hours` / `working
hours` fixes 08:00-18:00; either also sets the weekday default for `days`. -/
def namedWindow (text : List Char) : Option TimeRange × Option (List String) :=
  if containsSub "business hours".data text || containsSub "business hour".data text then
    (some BUSINESS_HOURS, some WEEKDAYS)
  else if containsSub "work hours".data text || containsSub "working hours".data text then
    (some WORK_HOURS, some WEEKDAYS)
  else (none, none)

/-- The explicit-range extractor, run after the named window: a `between`
match overwrites whatever window is already in place. -/
def applyBetween (text : List Char) (tr0 : Option TimeRange) : Option TimeRange :=
  match searchBetween text with
  | some (h1, p1, h2, p2) => some ⟨60 * to24 h1 p1, 60 * to24 h2 p2⟩
  | none => tr0

/-- The blanket day selectors, an if/elif chain in fixed priority order:
`weekday(s)`, then `weekend(s)`, then `every day`/`daily`; no phrase leaves
the previous value in place. -/
def blanketDays (text : List Char) (d0 : Option (List String)) : Option (List String) :=
  if containsSub "weekday".data text || containsSub "weekdays".data text then some WEEKDAYS
  else if containsSub "weekend".data text || containsSub "weekends".data text then some WEEKEND
  else if containsSub "every day".data text || containsSub "daily".data text then some ALL_DAYS
  else d0

/-- One step of the individual-day loop: a weekday name (or its plural)
appearing in the text is appended to the accumulating list when not already
present, starting from an empty list when no day set exists yet. -/
def dayStep (text : List Char) (acc : Option (List String)) (day : String) : Option (List String) :=
  if containsSub day.data text || containsSub (day ++ "s").data text then
    let cur := acc.getD []
    some (if day ∈ cur then cur else cur ++ [day])
  else acc

/-- The individual-day loop over the seven weekday names in order. -/
def addDayNames (text : List Char) (d0 : Option (List String)) : Option (List String) :=
  ALL_DAYS.foldl (dayStep text) d0

/-- Lift the extractor results into dict entries: `parse` stores every key,
with `None` for a constraint that never matched. -/
def ofOpt {α : Type} : Option α → Field α
  | none => Field.null
  | some a => Field.val a

/-- FrequencyParser.parse: empty input fails, otherwise the five extractors
run over the lowercased stripped text and the parse succeeds exactly when
the mandatory interval token was found and its unit normalized. -/
def parse (s : String) : Option Config :=
  if s.data = [] then none
  else
    let text := normalizeText s
    match searchInterval text with
    | none => none
    | some (vOpt, utok) =>
      match normalizeUnit utok with
      | none => none
      | some u =>
        let nw := namedWindow text
        some { interval_value := Field.val (vOpt.getD 1 : Nat)
               interval_unit := Field.val u
               time_range := ofOpt (applyBetween text nw.1)
               days := ofOpt (addDayNames text (blanketDays text nw.2))
               enabled := Field.val true }

/-- ASCII upcasing of one character: `a`-`z` shift up into `A`-`Z`. -/
def upperChar (c : Char) : Char :=
  if 97 ≤ c.toNat && c.toNat ≤ 122 then Char.ofNat (c.toNat - 32) else c

/-- Python `str.capitalize`: first character upcased, the rest lowered. -/
def capitalizeStr (s : String) : String :=
  match s.data with
  | [] => ""
  | c :: cs => ⟨upperChar c :: lowerStr cs⟩

/-- Python `interval_unit.rstrip('s')`: drop every trailing `s`. -/
def rstripS (s : String) : String :=
  ⟨(s.data.reverse.dropWhile (fun c => c = 's')).reverse⟩

/-- Python `str(...)` on an optional int (`None` renders as `None`). -/
def pyStrInt : Option Int → String
  | none => "None"
  | some v => toString v

/-- Python `str(...)` on an optional string. -/
def pyStrStr : Option String → String
  | none => "None"
  | some u => u

/-- Python `set(a) == set(b)` on day-name lists. -/
def setEqL (a b : List String) : Bool :=
  a.all (fun d => b.contains d) && b.all (fun d => a.contains d)

/-- Fold a 24-hour hour back to 12-hour display form in `describe`. -/
def foldHour (h : Nat) : Nat :=
  if h > 12 then h - 12 else if h = 0 then 12 else h

/-- The am/pm marker `describe` picks from the 24-hour hour. -/
def periodOf (h : Nat) : String :=
  if h < 12 then "am" else "pm"

/-- Rendering of a non-business-hours window in `describe`.  The hour is the
part of the stored `HH:MM` string before the colon, i.e. the minutes value
divided by 60. -/
def renderRange (r : TimeRange) : String :=
  let sh := r.startMin / 60
  let eh := r.endMin / 60
  "between " ++ toString (foldHour sh) ++ periodOf sh ++
    " and " ++ toString (foldHour eh) ++ periodOf eh

/-- Rendering of an explicit day list in `describe`: one day gets `on Xs`,
several are joined with commas and a final `and`. -/
def renderDayList (ds : List String) : String :=
  let names := ds.map capitalizeStr
  if names.length = 1 then "on " ++ names.headD "" ++ "s"
  else "on " ++ String.intercalate ", " names.dropLast ++ " and " ++ names.getLastD ""

/-- FrequencyParser.describe.  A config that is missing or not enabled
renders as `No reminders set`.  `none` models the `AttributeError` raised
when `interval_value == 1` while the stored unit is `None`
(`None.rstrip('s')`). -/
def describe (config : Config) : Option String :=
  if config.enabled ≠ Field.val true then some "No reminders set"
  else
    let ivOpt := config.interval_value.getD? 1
    let iuOpt := config.interval_unit.getD? "hours"
    let part1? : Option String :=
      if ivOpt = some 1 then
        match iuOpt with
        | none => none
        | some u => some ("Every " ++ rstripS u)
      else some ("Every " ++ pyStrInt ivOpt ++ " " ++ pyStrStr iuOpt)
    match part1? with
    | none => none
    | some p1 =>
      let parts1 : List String :=
        match config.time_range.get? with
        | none => [p1]
        | some r =>
          if r.startMin = 540 && r.endMin = 1020 then [p1, "during business hours"]
          else [p1, renderRange r]
      let parts2 : List String :=
        match config.days.get? with
        | none => parts1
        | some ds =>
          if ds.isEmpty then parts1
          else if setEqL ds WEEKDAYS then parts1 ++ ["on weekdays"]
          else if setEqL ds WEEKEND then parts1 ++ ["on weekends"]
          else if setEqL ds ALL_DAYS then parts1
          else parts1 ++ [renderDayList ds]
      some (String.intercalate " " parts2)

/-- Lowercase full weekday name of a local timestamp, `now.strftime("%A").lower()`.
Day 0 of the epoch (1970-01-01) was a Thursday, so shifting the epoch-day
count by 3 makes index 0 Monday. -/
def weekdayName (localSec : Int) : String :=
  ALL_DAYS.getD ((localSec.fdiv 86400 + 3).emod 7).toNat "monday"

/-- Local time of day in seconds after midnight. -/
def secOfDay (localSec : Int) : Int :=
  localSec.emod 86400

/-- The timestamp a rule last fired, as it arrives at the due check: either
zone-aware (an unambiguous instant) or naive (a bare wall-clock reading with
no zone attached). -/
inductive LastTime where
  | aware (instant : Int)
  | naive (wall : Int)
deriving DecidableEq, Repr

/-- How `should_remind_now` turns the last-fired timestamp into an instant:
an aware value is used as is; a naive value is localized into the configured
timezone (`tz.localize`), i.e. read as a wall clock in that zone. -/
def resolveLast (tzOff : Int) : LastTime → Int
  | .aware i => i
  | .naive w => w - tzOff

/-- Length in seconds of one interval unit, the `timedelta` selection chain;
an unrecognized unit has no length. -/
def unitSeconds : String → Option Int
  | "minutes" => some 60
  | "hours" => some 3600
  | "days" => some 86400
  | "weeks" => some 604800
  | _ => none

/-- The interval check of `should_remind_now`, reached when a last-fired
timestamp exists: a missing value or unit defaults to 1 resp. `hours`; an
unrecognized (or `None`) unit returns false; a `None` value with a
recognized unit raises (`timedelta(...=None)`), modeled as `none`; otherwise
fire exactly when the elapsed time has reached the interval. -/
def intervalGate (config : Config) (elapsed : Int) : Option Bool :=
  match config.interval_unit.getD? "hours" with
  | none => some false
  | some u =>
    match unitSeconds u with
    | none => some false
    | some secs =>
      match config.interval_value.getD? 1 with
      | none => none
      | some v => some (decide (v * secs ≤ elapsed))

/-- FrequencyParser.should_remind_now.  `tzOff` is the fixed UTC offset of
the configured timezone, `now` the current instant; `none` models an
uncaught exception (a `None` interval value with a recognized unit, or a
stored time bound `strptime` cannot read back). -/
def should_remind_now (config : Config) (last : Option LastTime)
    (tzOff : Int) (now : Int) : Option Bool :=
  if config.enabled ≠ Field.val true then some false
  else
    let localNow := now + tzOff
    let dayBlocked :=
      match config.days.get? with
      | some ds => !ds.isEmpty && !(ds.contains (weekdayName localNow))
      | none => false
    if dayBlocked then some false
    else
      let step : Option Bool :=
        match last with
        | none => some true
        | some lt => intervalGate config (now - resolveLast tzOff lt)
      match config.time_range.get? with
      | some r =>
        if 1440 ≤ r.startMin || 1440 ≤ r.endMin then none
        else if !(decide ((r.startMin : Int) * 60 ≤ secOfDay localNow) &&
                  decide (secOfDay localNow ≤ (r.endMin : Int) * 60)) then some false
        else step
      | none => step

/-- One todo row as `check_todo_reminders` sees it: its id, its stored
last-fired timestamp, and the result of `json.loads` on its stored reminder
config (`none` when the stored text does not decode). -/
structure TodoRec where
  id : Nat
  last_reminder_at : Option LastTime
  parsed : Option Config
deriving Repr

/-- The tick environment: per-todo outcomes of the two effectful steps
(sending the Telegram message, committing the new timestamp), plus the
configured timezone offset and the instant `now` captured once at the top of
the tick. -/
structure TickEnv where
  sendOk : Nat → Bool
  persistOk : Nat → Bool
  tzOff : Int
  now : Int

/-- The body of the per-todo loop of `check_todo_reminders`, without the
enclosing `try`/`except`: any raising step is an `error`.  A successful
dispatch persists `now` as the new last-fired time; the stored value is the
naive local wall clock of `now`, because the zone-aware `datetime.now(tz)`
loses its offset in the naive `DateTime` column. -/
def processTodoE (env : TickEnv) (t : TodoRec) : Except Unit (Option LastTime) :=
  match t.parsed with
  | none => .error ()
  | some cfg =>
    match should_remind_now cfg t.last_reminder_at env.tzOff env.now with
    | none => .error ()
    | some false => .ok t.last_reminder_at
    | some true =>
      match describe cfg with
      | none => .error ()
      | some _ =>
        if env.sendOk t.id then
          if env.persistOk t.id then .ok (some (LastTime.naive (env.now + env.tzOff)))
          else .error ()
        else .error ()

/-- The per-todo loop body with its `try`/`except`: an exception is caught
and logged and the todo's stored timestamp is left as it was. -/
def processTodo (env : TickEnv) (t : TodoRec) : Option LastTime :=
  match processTodoE env t with
  | .ok v => v
  | .error _ => t.last_reminder_at

/-- One tick of `check_todo_reminders` over the non-completed todos carrying
a reminder config: each is processed in turn and contributes its resulting
last-fired timestamp. -/
def check_todo_reminders (env : TickEnv) : List TodoRec → List (Nat × Option LastTime)
  | [] => []
  | t :: rest => (t.id, processTodo env t) :: check_todo_reminders env rest

/-- Modelled from the spec: the duration `interval(intervalValue, intervalUnit)`
of claim C1, `interval_value` many units. -/
def specDuration (cfg : Config) : Int :=
  match cfg.interval_value, cfg.interval_unit with
  | Field.val v, Field.val u => v * ((unitSeconds u).getD 0)
  | _, _ => 0

/-- Modelled from the spec: the due predicate exactly as claim C1 words it —
enabled, and days unset or current weekday a member, and time range unset or
local time of day within it inclusively, and no last fire or elapsed at
least the interval. -/
def spec_due (cfg : Config) (lastInstant : Option Int) (tzOff now : Int) : Bool :=
  decide (cfg.enabled = Field.val true) &&
  (match cfg.days with
   | Field.val ds => ds.contains (weekdayName (now + tzOff))
   | _ => true) &&
  (match cfg.time_range with
   | Field.val r =>
     decide ((r.startMin : Int) * 60 ≤ secOfDay (now + tzOff)) &&
     decide (secOfDay (now + tzOff) ≤ (r.endMin : Int) * 60)
   | _ => true) &&
  (match lastInstant with
   | none => true
   | some l => decide (specDuration cfg ≤ now - l))

/-- Modelled from the spec, amended: as `spec_due`, except that a present but
empty day set is treated like an unset one (the code's truthiness test skips
the day gate for an empty list). -/
def spec_due_amended (cfg : Config) (lastInstant : Option Int) (tzOff now : Int) : Bool :=
  decide (cfg.enabled = Field.val true) &&
  (match cfg.days with
   | Field.val ds => ds.isEmpty || ds.contains (weekdayName (now + tzOff))
   | _ => true) &&
  (match cfg.time_range with
   | Field.val r =>
     decide ((r.startMin : Int) * 60 ≤ secOfDay (now + tzOff)) &&
     decide (secOfDay (now + tzOff) ≤ (r.endMin : Int) * 60)
   | _ => true) &&
  (match lastInstant with
   | none => true
   | some l => decide (specDuration cfg ≤ now - l))

/-- A config is well formed in the sense of claim C1: interval fields present
with a recognized unit, and any stored time bound readable back by
`strptime("%H:%M")` (a minute of the day). -/
def wellFormedB (cfg : Config) : Bool :=
  (match cfg.interval_value with
   | Field.val _ => true
   | _ => false) &&
  (match cfg.interval_unit with
   | Field.val u => (unitSeconds u).isSome
   | _ => false) &&
  (match cfg.time_range with
   | Field.val r => decide (r.startMin < 1440) && decide (r.endMin < 1440)
   | _ => true)

/-- Boolean outcome of the enabled gate of `should_remind_now`. -/
def enabledPass (cfg : Config) : Bool :=
  decide (cfg.enabled = Field.val true)

/-- Boolean outcome of the day gate of `should_remind_now`: pass when no
nonempty day list is stored or the current local weekday is a member. -/
def dayPass (cfg : Config) (localNow : Int) : Bool :=
  match cfg.days.get? with
  | some ds => ds.isEmpty || ds.contains (weekdayName localNow)
  | none => true

/-- Boolean outcome of the time-range gate of `should_remind_now`. -/
def timePass (cfg : Config) (localNow : Int) : Bool :=
  match cfg.time_range.get? with
  | some r =>
    decide ((r.startMin : Int) * 60 ≤ secOfDay localNow) &&
    decide (secOfDay localNow ≤ (r.endMin : Int) * 60)
  | none => true

/-- Boolean outcome of the interval check when it does not raise. -/
def gateBool (cfg : Config) (e : Int) : Bool :=
  match cfg.interval_unit.getD? "hours" with
  | none => false
  | some u =>
    match unitSeconds u with
    | none => false
    | some secs =>
      match cfg.interval_value.getD? 1 with
      | none => false
      | some v => decide (v * secs ≤ e)

/-- Boolean outcome of the last-fired gate: a rule with no recorded fire is
due, otherwise the interval check decides. -/
def lastPass (cfg : Config) (last : Option LastTime) (tzOff now : Int) : Bool :=
  match last with
  | none => true
  | some lt => gateBool cfg (now - resolveLast tzOff lt)

/-- A plain enabled two-hour rule. -/
def cfgHours2 : Config :=
  ⟨Field.val 2, Field.val "hours", Field.null, Field.null, Field.val true⟩

/-- A plain enabled one-hour rule, the shape used by the repository's own
naive-datetime regression test. -/
def cfgHour1 : Config :=
  ⟨Field.val 1, Field.val "hours", Field.null, Field.null, Field.val true⟩

/-- An enabled rule whose stored day constraint is the empty list. -/
def cfgEmptyDays : Config :=
  ⟨Field.val 2, Field.val "hours", Field.null, Field.val [], Field.val true⟩

/-- A malformed stored config: enabled, but both interval keys missing. -/
def cfgMissingInterval : Config :=
  ⟨Field.absent, Field.absent, Field.absent, Field.absent, Field.val true⟩

/-- A tick environment where every send and commit succeeds, in the
America/Montreal standard offset (UTC-5), at a fixed instant. -/
def envMtl : TickEnv :=
  ⟨fun _ => true, fun _ => true, -18000, 1700000000⟩

end FP

open FP

/-- C7: the spec's intended invariant — every successful `parse` yields
`interval_value ≥ 1` — fails on the code: `parse "every 0 hours"` succeeds
with interval value 0 (the repository's own test documents this as Bug #11).
This theorem evaluates the parser at the failing input. -/
theorem c7_parse_accepts_zero_interval :
    parse "every 0 hours" =
      some ⟨Field.val 0, Field.val "hours", Field.null, Field.null, Field.val true⟩ ∧
    ¬ (1 ≤ (0 : Int)) := by
  constructor
  · decide
  · decide

/-- C10: `parse "every 2 hours during business hours"` succeeds, and
`describe` of the result renders the 09:00-17:00 window back as the phrase
`during business hours`; the description contains both `Every 2 hours` and
`business hours`. -/
theorem c10_describe_business_hours :
    parse "every 2 hours during business hours" =
      some ⟨Field.val 2, Field.val "hours", Field.val ⟨540, 1020⟩,
            Field.val WEEKDAYS, Field.val true⟩ ∧
    (parse "every 2 hours during business hours").bind describe =
      some "Every 2 hours during business hours on weekdays" ∧
    containsSub "Every 2 hours".data
      "Every 2 hours during business hours on weekdays".data = true ∧
    containsSub "business hours".data
      "Every 2 hours during business hours on weekdays".data = true := by
  refine ⟨by decide, by decide, by decide, by decide⟩

/-- C2: the code does not treat a zone-naive last-fired timestamp as UTC: it
localizes it into the configured timezone.  At the repository's own Bug #8
regression scenario — a 1-hour rule, a naive UTC wall reading taken two
hours before `now`, timezone offset UTC-5 — the code answers `some false`
although under the claimed UTC reading the rule is due (second conjunct).
The third conjunct shows the value persisted after a dispatch: the naive
local wall clock of `now`, not the UTC instant. -/
theorem c2_naive_last_fired_not_utc :
    should_remind_now cfgHour1 (some (LastTime.naive (1700000000 - 7200)))
      (-18000) 1700000000 = some false ∧
    spec_due cfgHour1 (some (1700000000 - 7200)) (-18000) 1700000000 = true ∧
    check_todo_reminders envMtl [⟨7, none, some cfgHour1⟩] =
      [(7, some (LastTime.naive (1700000000 + (-18000))))] := by
  refine ⟨by decide, by decide, by decide⟩

/-- C3 counterexample: a stored config lacking both interval keys does not
degrade to never fire — with the rule enabled and no reminder sent yet the
code fires, where the claim requires `false` for every last-fired value. -/
theorem c3_counterexample_missing_interval_fires :
    should_remind_now cfgMissingInterval none 0 0 = some true := by
  decide


/-- Helper: when the stored interval value is not an explicit `None`, the
interval check returns its boolean outcome instead of raising. -/
theorem intervalGate_eq_gateBool (cfg : Config) (e : Int)
    (h : cfg.interval_value ≠ Field.null) :
    intervalGate cfg e = some (gateBool cfg e) := by
  unfold intervalGate gateBool
  cases hu : cfg.interval_unit.getD? "hours" with
  | none => simp
  | some u =>
    cases hs : unitSeconds u with
    | none => simp [hs]
    | some secs =>
      cases hv : cfg.interval_value with
      | absent => simp [hs, Field.getD?]
      | null => exact absurd hv h
      | val v => simp [hs, Field.getD?]

theorem step_eq (cfg : Config) (last : Option LastTime) (tzOff now : Int)
    (h1 : cfg.interval_value ≠ Field.null) :
    (match last with
      | none => some true
      | some lt => intervalGate cfg (now - resolveLast tzOff lt)) =
      some (lastPass cfg last tzOff now) := by
  cases last with
  | none => rfl
  | some lt => exact intervalGate_eq_gateBool cfg _ h1

theorem should_remind_now_closed_form (cfg : Config) (last : Option LastTime)
    (tzOff now : Int)
    (h1 : cfg.interval_value ≠ Field.null)
    (h2 : ∀ r, cfg.time_range = Field.val r → r.startMin < 1440 ∧ r.endMin < 1440) :
    should_remind_now cfg last tzOff now =
      some (enabledPass cfg && dayPass cfg (now + tzOff) &&
            timePass cfg (now + tzOff) && lastPass cfg last tzOff now) := by
  have htail :
      (match cfg.time_range.get? with
        | some r =>
          if 1440 ≤ r.startMin || 1440 ≤ r.endMin then none
          else if !(decide ((r.startMin : Int) * 60 ≤ secOfDay (now + tzOff)) &&
                    decide (secOfDay (now + tzOff) ≤ (r.endMin : Int) * 60)) then some false
          else match last with
               | none => some true
               | some lt => intervalGate cfg (now - resolveLast tzOff lt)
        | none => match last with
                  | none => some true
                  | some lt => intervalGate cfg (now - resolveLast tzOff lt)) =
      some (timePass cfg (now + tzOff) && lastPass cfg last tzOff now) := by
    cases htr : cfg.time_range.get? with
    | none =>
      have htp : timePass cfg (now + tzOff) = true := by simp [timePass, htr]
      dsimp only
      rw [htp, Bool.true_and]
      exact step_eq cfg last tzOff now h1
    | some r =>
      have hb : r.startMin < 1440 ∧ r.endMin < 1440 := by
        apply h2
        cases h : cfg.time_range with
        | absent => rw [h] at htr; simp [Field.get?] at htr
        | null => rw [h] at htr; simp [Field.get?] at htr
        | val r' => rw [h] at htr; simp [Field.get?] at htr; rw [htr]
      dsimp only
      rw [if_neg (by simp; omega)]
      by_cases hc : (decide ((r.startMin : Int) * 60 ≤ secOfDay (now + tzOff)) &&
          decide (secOfDay (now + tzOff) ≤ (r.endMin : Int) * 60)) = true
      · have htp : timePass cfg (now + tzOff) = true := by simp [timePass, htr, hc]
        rw [if_neg (by simp [hc]), htp, Bool.true_and]
        exact step_eq cfg last tzOff now h1
      · have hc' : (decide ((r.startMin : Int) * 60 ≤ secOfDay (now + tzOff)) &&
            decide (secOfDay (now + tzOff) ≤ (r.endMin : Int) * 60)) = false :=
          Bool.eq_false_iff.mpr hc
        have htp : timePass cfg (now + tzOff) = false := by
          simp only [timePass, htr]
          exact hc'
        rw [if_pos (by simp [hc']), htp]
        simp
  unfold should_remind_now
  by_cases hen : cfg.enabled = Field.val true
  · have hep : enabledPass cfg = true := by simp [enabledPass, hen]
    rw [if_neg (by simp [hen]), hep, Bool.true_and]
    cases hds : cfg.days.get? with
    | none =>
      have hdp : dayPass cfg (now + tzOff) = true := by simp [dayPass, hds]
      dsimp only
      rw [hdp, Bool.true_and]
      exact htail
    | some l =>
      dsimp only
      by_cases hblock : (!l.isEmpty && !(l.contains (weekdayName (now + tzOff)))) = true
      · have hdp : dayPass cfg (now + tzOff) = false := by
          simp only [dayPass, hds]
          simp only [Bool.and_eq_true, Bool.not_eq_true'] at hblock
          rw [hblock.1, hblock.2]
          rfl
        rw [if_pos hblock, hdp]
        simp
      · have hdp : dayPass cfg (now + tzOff) = true := by
          simp only [dayPass, hds]
          simp only [Bool.and_eq_true, Bool.not_eq_true', not_and_or, Bool.not_eq_false] at hblock
          rcases hblock with h | h <;> rw [h] <;> simp
        rw [if_neg hblock, hdp, Bool.true_and]
        exact htail
  · have hep : enabledPass cfg = false := by simp [enabledPass, hen]
    rw [if_pos (by simp [hen]), hep]
    simp

/-- C3 amended: a rule config lacking its interval fields never raises, but
it does not degrade to never fire: the missing keys take the defaults
`interval_value = 1`, `interval_unit = "hours"`, so the rule evaluates
exactly like an enabled/disabled one-hour rule (first conjunct); evaluation
returns a boolean for every config whose stored interval value is not an
explicit `None` and whose stored time bounds are readable (second conjunct);
concretely the malformed enabled config fires once an hour has elapsed
(last conjuncts). -/
theorem c3_missing_interval_defaults_to_one_hour :
    (∀ cfg : Config, cfg.interval_value = Field.absent → cfg.interval_unit = Field.absent →
      ∀ last tzOff now, should_remind_now cfg last tzOff now =
        should_remind_now
          { cfg with interval_value := Field.val 1, interval_unit := Field.val "hours" }
          last tzOff now) ∧
    (∀ cfg : Config, cfg.interval_value ≠ Field.null →
      (∀ r, cfg.time_range = Field.val r → r.startMin < 1440 ∧ r.endMin < 1440) →
      ∀ last tzOff now, should_remind_now cfg last tzOff now ≠ none) ∧
    should_remind_now cfgMissingInterval (some (LastTime.aware 0)) 0 3599 = some false ∧
    should_remind_now cfgMissingInterval (some (LastTime.aware 0)) 0 3600 = some true := by
  refine ⟨?_, ?_, by decide, by decide⟩
  · intro cfg h1 h2 last tzOff now
    obtain ⟨iv, iu, tr, ds, en⟩ := cfg
    simp only at h1 h2
    subst h1
    subst h2
    rfl
  · intro cfg h1 h2 last tzOff now
    rw [should_remind_now_closed_form cfg last tzOff now h1 h2]
    simp

/-- Witness for the second conjunct of C3: the malformed config satisfies
the hypotheses and its evaluation returns a boolean. -/
theorem c3_missing_interval_witness :
    cfgMissingInterval.interval_value ≠ Field.null ∧
    should_remind_now cfgMissingInterval (some (LastTime.aware 0)) 0 3600 ≠ none :=
  ⟨by decide,
   c3_missing_interval_defaults_to_one_hour.2.1 cfgMissingInterval (by decide)
     (by intro r h; simp [cfgMissingInterval] at h) (some (LastTime.aware 0)) 0 3600⟩

/-- C1 counterexample: a well-formed enabled two-hour rule whose stored day
list is present but empty.  The code skips the day gate (empty list is
falsy) and fires, while the claim's biconditional — days set and the current
weekday not a member — demands `false`. -/
theorem c1_counterexample_empty_days :
    wellFormedB cfgEmptyDays = true ∧
    should_remind_now cfgEmptyDays none 0 0 = some true ∧
    spec_due cfgEmptyDays none 0 0 = false := by
  refine ⟨by decide, by decide, by decide⟩

/-- C1 amended: for every well-formed config, every last-fired value, every
timezone offset and every instant, `should_remind_now` returns exactly the
claim's conjunction — enabled, and days unset *or empty* or the local
weekday a member, and time range unset or the local time of day inside it
inclusively, and never fired or elapsed at least `interval_value`
units — with a naive last-fired value first localized into the configured
timezone.  A rule that is not enabled never fires (second conjunct), and a
two-hour rule fired at 0 is not due 90 minutes later but is due 121 minutes
later (last conjuncts). -/
theorem c1_due_evaluation :
    (∀ (cfg : Config) (last : Option LastTime) (tzOff now : Int),
      wellFormedB cfg = true →
      should_remind_now cfg last tzOff now =
        some (spec_due_amended cfg (last.map (resolveLast tzOff)) tzOff now)) ∧
    (∀ (cfg : Config) (last : Option LastTime) (tzOff now : Int),
      cfg.enabled ≠ Field.val true → should_remind_now cfg last tzOff now = some false) ∧
    should_remind_now cfgHours2 (some (LastTime.aware 0)) 0 5400 = some false ∧
    should_remind_now cfgHours2 (some (LastTime.aware 0)) 0 7260 = some true := by
  refine ⟨?_, ?_, by decide, by decide⟩
  · intro cfg last tzOff now hwf
    simp only [wellFormedB, Bool.and_eq_true] at hwf
    obtain ⟨⟨hv, hu⟩, ht⟩ := hwf
    have h1 : cfg.interval_value ≠ Field.null := by
      intro h
      rw [h] at hv
      simp at hv
    have h2 : ∀ r, cfg.time_range = Field.val r → r.startMin < 1440 ∧ r.endMin < 1440 := by
      intro r hr
      rw [hr] at ht
      simpa using ht
    rw [should_remind_now_closed_form cfg last tzOff now h1 h2]
    unfold spec_due_amended
    have e2 : dayPass cfg (now + tzOff) =
        (match cfg.days with
          | Field.val ds => ds.isEmpty || ds.contains (weekdayName (now + tzOff))
          | _ => true) := by
      cases hd : cfg.days <;> simp [dayPass, hd, Field.get?]
    have e3 : timePass cfg (now + tzOff) =
        (match cfg.time_range with
          | Field.val r =>
            decide ((r.startMin : Int) * 60 ≤ secOfDay (now + tzOff)) &&
            decide (secOfDay (now + tzOff) ≤ (r.endMin : Int) * 60)
          | _ => true) := by
      cases hd : cfg.time_range <;> simp [timePass, hd, Field.get?]
    have e4 : lastPass cfg last tzOff now =
        (match last.map (resolveLast tzOff) with
          | none => true
          | some l => decide (specDuration cfg ≤ now - l)) := by
      cases last with
      | none => rfl
      | some lt =>
        show gateBool cfg (now - resolveLast tzOff lt) =
          decide (specDuration cfg ≤ now - resolveLast tzOff lt)
        cases hvv : cfg.interval_value with
        | absent => rw [hvv] at hv; simp at hv
        | null => rw [hvv] at hv; simp at hv
        | val v =>
          cases huu : cfg.interval_unit with
          | absent => rw [huu] at hu; simp at hu
          | null => rw [huu] at hu; simp at hu
          | val u =>
            rw [huu] at hu
            simp only [Option.isSome_iff_exists] at hu
            obtain ⟨secs, hs⟩ := hu
            simp [gateBool, specDuration, Field.getD?, hvv, huu, hs]
    rw [e2, e3, e4]
    rfl
  · intro cfg last tzOff now hen
    unfold should_remind_now
    rw [if_pos hen]

/-- Witness for C1: the concrete two-hour rule is well formed and the
theorem's equation evaluates at it. -/
theorem c1_due_evaluation_witness :
    wellFormedB cfgHours2 = true ∧
    should_remind_now cfgHours2 (some (LastTime.aware 0)) 0 7260 =
      some (spec_due_amended cfgHours2
        (Option.map (resolveLast 0) (some (LastTime.aware 0))) 0 7260) :=
  ⟨by decide,
   c1_due_evaluation.1 cfgHours2 (some (LastTime.aware 0)) 0 7260 (by decide)⟩

/-- C4: within one tick, todo processing is isolated and atomic on error.
Every todo contributes exactly one entry whatever happens to the others
(first conjunct); a todo whose processing raises is caught and leaves its
stored timestamp unchanged while the rest of the tick still runs (second
conjunct); a changed timestamp can only result from a due rule, a
successful send and a successful commit, and is then `now` (third
conjunct); a failed send or a failed commit leaves the timestamp unchanged
(last conjuncts). -/
theorem c4_tick_partial_failure_isolation :
    (∀ (env : TickEnv) (todos : List TodoRec),
      check_todo_reminders env todos = todos.map (fun t => (t.id, processTodo env t))) ∧
    (∀ (env : TickEnv) (t : TodoRec) (rest : List TodoRec),
      processTodoE env t = Except.error () →
      check_todo_reminders env (t :: rest) =
        (t.id, t.last_reminder_at) :: check_todo_reminders env rest) ∧
    (∀ (env : TickEnv) (t : TodoRec),
      processTodo env t ≠ t.last_reminder_at →
      env.sendOk t.id = true ∧ env.persistOk t.id = true ∧
      ∃ cfg, t.parsed = some cfg ∧
        should_remind_now cfg t.last_reminder_at env.tzOff env.now = some true ∧
        processTodo env t = some (LastTime.naive (env.now + env.tzOff))) ∧
    (∀ (env : TickEnv) (t : TodoRec),
      env.sendOk t.id = false → processTodo env t = t.last_reminder_at) ∧
    (∀ (env : TickEnv) (t : TodoRec),
      env.persistOk t.id = false → processTodo env t = t.last_reminder_at) := by
  refine ⟨?_, ?_, ?_, ?_, ?_⟩
  · intro env todos
    induction todos with
    | nil => rfl
    | cons t rest ih => simp [check_todo_reminders, ih]
  · intro env t rest h
    simp [check_todo_reminders, processTodo, h]
  · intro env t h
    unfold processTodo processTodoE at h ⊢
    cases hp : t.parsed with
    | none => simp [hp] at h
    | some cfg =>
      simp only [hp] at h ⊢
      cases hs : should_remind_now cfg t.last_reminder_at env.tzOff env.now with
      | none => simp [hs] at h
      | some b =>
        simp only [hs] at h ⊢
        cases b with
        | false => simp at h
        | true =>
          cases hd : describe cfg with
          | none => simp [hd] at h
          | some msg =>
            simp only [hd] at h ⊢
            cases hsend : env.sendOk t.id with
            | false => simp [hsend] at h
            | true =>
              simp only [hsend] at h ⊢
              cases hper : env.persistOk t.id with
              | false => simp [hper] at h
              | true =>
                refine ⟨?_, ?_, cfg, ?_, ?_, ?_⟩ <;> simp [hp, hs, hsend, hper]
  · intro env t h
    unfold processTodo processTodoE
    cases hp : t.parsed with
    | none => rfl
    | some cfg =>
      try dsimp only
      cases hs : should_remind_now cfg t.last_reminder_at env.tzOff env.now with
      | none => rfl
      | some b =>
        try dsimp only
        cases b with
        | false => rfl
        | true =>
          try dsimp only
          cases hd : describe cfg with
          | none => rfl
          | some msg =>
            try dsimp only
            simp [h]
  · intro env t h
    unfold processTodo processTodoE
    cases hp : t.parsed with
    | none => rfl
    | some cfg =>
      try dsimp only
      cases hs : should_remind_now cfg t.last_reminder_at env.tzOff env.now with
      | none => rfl
      | some b =>
        try dsimp only
        cases b with
        | false => rfl
        | true =>
          try dsimp only
          cases hd : describe cfg with
          | none => rfl
          | some msg =>
            try dsimp only
            cases hsend : env.sendOk t.id with
            | false => simp
            | true => simp [h]

/-- Witness for C4: a tick whose send step fails leaves the stored timestamp
unchanged at a concrete environment and todo. -/
theorem c4_tick_witness :
    (TickEnv.mk (fun _ => false) (fun _ => true) 0 0).sendOk 0 = false ∧
    processTodo (TickEnv.mk (fun _ => false) (fun _ => true) 0 0)
        (TodoRec.mk 0 none (some cfgHours2)) =
      (TodoRec.mk 0 none (some cfgHours2)).last_reminder_at :=
  ⟨rfl,
   c4_tick_partial_failure_isolation.2.2.2.1
     (TickEnv.mk (fun _ => false) (fun _ => true) 0 0)
     (TodoRec.mk 0 none (some cfgHours2)) rfl⟩

/-- Helper: every successful parse is the record built from the extractor
pipeline over the normalized text, with the interval token found by the
search and its unit normalized. -/
theorem parse_some_shape (s : String) (cfg : Config) (hp : parse s = some cfg) :
    ∃ vOpt utok u, searchInterval (normalizeText s) = some (vOpt, utok) ∧
      normalizeUnit utok = some u ∧
      cfg = { interval_value := Field.val (vOpt.getD 1 : Nat)
              interval_unit := Field.val u
              time_range :=
                ofOpt (applyBetween (normalizeText s) (namedWindow (normalizeText s)).1)
              days :=
                ofOpt (addDayNames (normalizeText s)
                  (blanketDays (normalizeText s) (namedWindow (normalizeText s)).2))
              enabled := Field.val true } := by
  simp only [parse] at hp
  split at hp
  · exact absurd hp (by simp)
  · rcases hsi : searchInterval (normalizeText s) with _ | ⟨vOpt, utok⟩
    · rw [hsi] at hp; simp at hp
    · rw [hsi] at hp
      dsimp only at hp
      rcases hnu : normalizeUnit utok with _ | u
      · rw [hnu] at hp; simp at hp
      · rw [hnu] at hp
        simp only [Option.some.injEq] at hp
        exact ⟨vOpt, utok, u, rfl, hnu, hp.symm⟩

/-- C8: the named-window extractor runs first and the explicit-range
extractor overwrites it.  Whenever a successful parse's text carries an
explicit `between` match, the final window is that range converted by the
am/pm rule, regardless of any named window (first conjunct); with no
`between` match, a text naming business hours keeps 09:00-17:00 (second
conjunct); the named-window extractor maps business hours to 09:00-17:00 and
work hours to 08:00-18:00, each with the five-weekday day default (third and
fourth conjuncts); the conversion rule is 12am to 0, 12pm to 12, otherwise
add 12 for pm (fifth conjunct); and on a text carrying both phrases the
explicit range wins with no error while the weekday default stays (last
conjuncts). -/
theorem c8_window_precedence :
    (∀ (s : String) (cfg : Config) (h1 : Nat) (p1 : Option Period) (h2 : Nat)
        (p2 : Option Period),
      parse s = some cfg →
      searchBetween (normalizeText s) = some (h1, p1, h2, p2) →
      cfg.time_range = Field.val ⟨60 * to24 h1 p1, 60 * to24 h2 p2⟩) ∧
    (∀ (s : String) (cfg : Config),
      parse s = some cfg →
      searchBetween (normalizeText s) = none →
      (containsSub "business hours".data (normalizeText s) ||
       containsSub "business hour".data (normalizeText s)) = true →
      cfg.time_range = Field.val BUSINESS_HOURS) ∧
    (∀ text : List Char,
      (containsSub "business hours".data text ||
       containsSub "business hour".data text) = true →
      namedWindow text = (some BUSINESS_HOURS, some WEEKDAYS)) ∧
    (∀ text : List Char,
      (containsSub "business hours".data text ||
       containsSub "business hour".data text) = false →
      (containsSub "work hours".data text ||
       containsSub "working hours".data text) = true →
      namedWindow text = (some WORK_HOURS, some WEEKDAYS)) ∧
    (∀ h : Nat, to24 h (some Period.am) = (if h = 12 then 0 else h) ∧
      to24 h (some Period.pm) = (if h = 12 then 12 else h + 12) ∧
      to24 h none = h) ∧
    parse "every 2 hours during work hours" =
      some ⟨Field.val 2, Field.val "hours", Field.val WORK_HOURS,
            Field.val WEEKDAYS, Field.val true⟩ ∧
    parse "every hour during business hours between 8am and 3pm" =
      some ⟨Field.val 1, Field.val "hours", Field.val ⟨480, 900⟩,
            Field.val WEEKDAYS, Field.val true⟩ := by
  refine ⟨?_, ?_, ?_, ?_, ?_, by decide, by decide⟩
  · intro s cfg h1 p1 h2 p2 hp hb
    obtain ⟨vOpt, utok, u, hsi, hnu, rfl⟩ := parse_some_shape s cfg hp
    simp [applyBetween, hb, ofOpt]
  · intro s cfg hp hb hbiz
    obtain ⟨vOpt, utok, u, hsi, hnu, rfl⟩ := parse_some_shape s cfg hp
    simp only [applyBetween, hb, namedWindow]
    rw [if_pos hbiz]
    simp [ofOpt]
  · intro text h
    unfold namedWindow
    rw [if_pos h]
  · intro text h1 h2
    unfold namedWindow
    rw [if_neg (by simp [h1]), if_pos h2]
  · intro h
    refine ⟨rfl, ?_, rfl⟩
    by_cases h12 : h = 12
    · simp [to24, h12]
    · simp [to24, h12]

/-- Helper: one individual-day step never drops a day already accumulated. -/
theorem dayStep_preserves (text : List Char) (acc : Option (List String))
    (day d : String) (h : ∃ l, acc = some l ∧ d ∈ l) :
    ∃ l', dayStep text acc day = some l' ∧ d ∈ l' := by
  obtain ⟨l, hacc, hd⟩ := h
  subst hacc
  unfold dayStep
  split
  · refine ⟨_, rfl, ?_⟩
    split
    · simpa using hd
    · simp only [Option.getD_some]
      exact List.mem_append_left _ hd
  · exact ⟨l, rfl, hd⟩

/-- Helper: when a day's name occurs in the text, its step leaves it in the
accumulated list. -/
theorem dayStep_adds (text : List Char) (acc : Option (List String)) (d : String)
    (hc : containsSub d.data text = true) :
    ∃ l', dayStep text acc d = some l' ∧ d ∈ l' := by
  unfold dayStep
  rw [if_pos (by simp [hc])]
  by_cases hmem : d ∈ acc.getD []
  · exact ⟨_, rfl, by simp [hmem]⟩
  · refine ⟨_, rfl, ?_⟩
    simp only [hmem, if_false]
    exact List.mem_append_right _ (List.mem_singleton.mpr rfl)

/-- Helper: the individual-day fold preserves accumulated membership. -/
theorem dayFold_preserves (text : List Char) (days : List String) (d : String) :
    ∀ acc, (∃ l, acc = some l ∧ d ∈ l) →
      ∃ l', List.foldl (dayStep text) acc days = some l' ∧ d ∈ l' := by
  induction days with
  | nil => intro acc h; simpa using h
  | cons day rest ih =>
    intro acc h
    exact ih _ (dayStep_preserves text acc day d h)

/-- Helper: the individual-day fold adds every listed day whose name occurs
in the text. -/
theorem dayFold_adds (text : List Char) (days : List String) (d : String)
    (hc : containsSub d.data text = true) :
    ∀ acc, d ∈ days →
      ∃ l', List.foldl (dayStep text) acc days = some l' ∧ d ∈ l' := by
  induction days with
  | nil => intro acc h; simp at h
  | cons day rest ih =>
    intro acc h
    rcases List.mem_cons.mp h with h | h
    · subst h
      exact dayFold_preserves text rest d _ (dayStep_adds text acc d hc)
    · exact ih _ h

/-- C9 counterexample: for `"every hour on monday and on weekends"` the final
day set is the union of the weekend blanket set and the individually named
Monday — not the value any single last-matching phrase left in place, and in
particular a union across matched phrases. -/
theorem c9_counterexample_days_union :
    parse "every hour on monday and on weekends" =
      some ⟨Field.val 1, Field.val "hours", Field.null,
            Field.val ["saturday", "sunday", "monday"], Field.val true⟩ ∧
    setEqL ["saturday", "sunday", "monday"] ("monday" :: WEEKEND) = true ∧
    (["saturday", "sunday", "monday"] ≠ WEEKEND) ∧
    (["saturday", "sunday", "monday"] ≠ ["monday"]) := by
  refine ⟨by decide, by decide, by decide, by decide⟩

/-- C9 amended: `weekday(s)` sets the five-day set, `weekend(s)` the two-day
set and `every day`/`daily` all seven, applied as an if/elif chain in that
fixed priority order regardless of where the phrases sit in the text (first
three conjuncts); each individual weekday name appearing in the text is then
*added* to whatever set is in place, so the final `days` of a successful
parse always contains every named day (fourth conjunct) and can be a union
of a blanket set and named days (fifth conjunct); with the blanket selectors
the priority, not the text order, decides (last conjunct). -/
theorem c9_day_extraction :
    (∀ (text : List Char) (d0 : Option (List String)),
      (containsSub "weekday".data text || containsSub "weekdays".data text) = true →
      blanketDays text d0 = some WEEKDAYS) ∧
    (∀ (text : List Char) (d0 : Option (List String)),
      (containsSub "weekday".data text || containsSub "weekdays".data text) = false →
      (containsSub "weekend".data text || containsSub "weekends".data text) = true →
      blanketDays text d0 = some WEEKEND) ∧
    (∀ (text : List Char) (d0 : Option (List String)),
      (containsSub "weekday".data text || containsSub "weekdays".data text) = false →
      (containsSub "weekend".data text || containsSub "weekends".data text) = false →
      (containsSub "every day".data text || containsSub "daily".data text) = true →
      blanketDays text d0 = some ALL_DAYS) ∧
    (∀ (s : String) (cfg : Config) (d : String),
      parse s = some cfg → d ∈ ALL_DAYS →
      containsSub d.data (normalizeText s) = true →
      ∃ l, cfg.days = Field.val l ∧ d ∈ l) ∧
    parse "every hour on friday and on weekends" =
      some ⟨Field.val 1, Field.val "hours", Field.null,
            Field.val ["saturday", "sunday", "friday"], Field.val true⟩ ∧
    parse "every hour on weekends and weekdays" =
      some ⟨Field.val 1, Field.val "hours", Field.null,
            Field.val WEEKDAYS, Field.val true⟩ := by
  refine ⟨?_, ?_, ?_, ?_, by decide, by decide⟩
  · intro text d0 h
    unfold blanketDays
    rw [if_pos h]
  · intro text d0 h1 h2
    unfold blanketDays
    rw [if_neg (by simp [h1]), if_pos h2]
  · intro text d0 h1 h2 h3
    unfold blanketDays
    rw [if_neg (by simp [h1]), if_neg (by simp [h2]), if_pos h3]
  · intro s cfg d hp hmem hc
    obtain ⟨vOpt, utok, u, hsi, hnu, rfl⟩ := parse_some_shape s cfg hp
    obtain ⟨l, hl, hdl⟩ :=
      dayFold_adds (normalizeText s) ALL_DAYS d hc
        (blanketDays (normalizeText s) (namedWindow (normalizeText s)).2) hmem
    refine ⟨l, ?_, hdl⟩
    simp [addDayNames, hl, ofOpt]

/-- Witness for C9: the blanket chain at a concrete text containing
`weekday`. -/
theorem c9_day_extraction_witness :
    containsSub "weekday".data "on weekdays".data = true ∧
    blanketDays "on weekdays".data none = some WEEKDAYS :=
  ⟨by decide, c9_day_extraction.1 "on weekdays".data none (by decide)⟩

/-- Witness for C8: the explicit-range conjunct applied at a concrete text
carrying a `between` phrase. -/
theorem c8_window_precedence_witness :
    parse "every hour between 8am and 3pm" =
      some ⟨Field.val 1, Field.val "hours", Field.val ⟨480, 900⟩,
            Field.null, Field.val true⟩ ∧
    searchBetween (normalizeText "every hour between 8am and 3pm") =
      some (8, some Period.am, 3, some Period.pm) ∧
    (⟨Field.val 1, Field.val "hours", Field.val ⟨480, 900⟩,
      Field.null, Field.val true⟩ : Config).time_range =
      Field.val ⟨60 * to24 8 (some Period.am), 60 * to24 3 (some Period.pm)⟩ :=
  ⟨by decide, by decide,
   c8_window_precedence.1 "every hour between 8am and 3pm"
     ⟨Field.val 1, Field.val "hours", Field.val ⟨480, 900⟩, Field.null, Field.val true⟩
     8 (some Period.am) 3 (some Period.pm) (by decide) (by decide)⟩

/-- Helper: the unit matcher only ever returns one of the nine alternatives. -/
theorem matchUnit_mem (cs u : List Char) (h : matchUnit cs = some u) :
    u ∈ unitAlts :=
  List.mem_of_find?_eq_some h

/-- Helper: an anchored interval match carries a unit token from the
alternation. -/
theorem matchIntervalAt_token (cs : List Char) (v : Option Nat) (u : List Char)
    (h : matchIntervalAt cs = some (v, u)) : u ∈ unitAlts := by
  unfold matchIntervalAt at h
  rcases hd : dropLit "every".data cs with _ | r1
  · rw [hd] at h; exact absurd h (by simp)
  · rw [hd] at h
    dsimp only at h
    split at h
    · exact absurd h (by simp)
    · rcases hmu : matchUnit ((r1.dropWhile isWsChar |>.dropWhile isDigitChar).dropWhile isWsChar)
        with _ | u'
      · rw [hmu] at h; exact absurd h (by simp)
      · rw [hmu] at h
        simp only [Option.some.injEq, Prod.mk.injEq] at h
        rw [← h.2]
        exact matchUnit_mem _ _ hmu

/-- Helper: the interval search only returns tokens from the alternation. -/
theorem searchInterval_token (l : List Char) (v : Option Nat) (u : List Char)
    (h : searchInterval l = some (v, u)) : u ∈ unitAlts := by
  induction l with
  | nil => exact absurd h (by simp [searchInterval])
  | cons c cs ih =>
    unfold searchInterval at h
    rcases hm : matchIntervalAt (c :: cs) with _ | r
    · rw [hm] at h
      exact ih h
    · rw [hm] at h
      simp only [Option.some.injEq] at h
      subst h
      exact matchIntervalAt_token _ _ _ hm

/-- Helper: every alternation token normalizes to a canonical unit. -/
theorem normalizeUnit_isSome_of_mem (u : List Char) (h : u ∈ unitAlts) :
    (normalizeUnit u).isSome = true := by
  simp only [unitAlts, List.mem_cons, List.not_mem_nil, or_false] at h
  rcases h with h | h | h | h | h | h | h | h | h <;> subst h <;> decide

/-- C6: `parse` is total over every string (it is a plain function in the
embedding), and it returns `None` exactly when the input is empty or no
interval token is found by the interval search, regardless of what the
optional extractors would match. -/
theorem c6_parse_none_iff_no_interval :
    parse "" = none ∧
    (∀ s : String, parse s = none ↔
      (s.data = [] ∨ searchInterval (normalizeText s) = none)) := by
  refine ⟨by decide, ?_⟩
  intro s
  constructor
  · intro hp
    by_cases he : s.data = []
    · exact Or.inl he
    · right
      rcases hsi : searchInterval (normalizeText s) with _ | ⟨vOpt, utok⟩
      · rfl
      · have hmem := searchInterval_token _ _ _ hsi
        have hsome := normalizeUnit_isSome_of_mem _ hmem
        rw [Option.isSome_iff_exists] at hsome
        obtain ⟨u, hu⟩ := hsome
        simp only [parse] at hp
        rw [if_neg he, hsi] at hp
        dsimp only at hp
        rw [hu] at hp
        exact absurd hp (by simp)
  · intro h
    rcases h with he | hsi
    · simp only [parse]
      rw [if_pos he]
    · simp only [parse]
      split
      · rfl
      · rw [hsi]

/-- Helper: a small code point survives the `Char.ofNat` round trip. -/
theorem toNat_ofNat_small (n : Nat) (h : n < 255) : (Char.ofNat n).toNat = n := by
  have hv : n.isValidChar := Or.inl (by omega)
  simp only [Char.ofNat, hv, dif_pos, Char.ofNatAux, Char.toNat, UInt32.toNat]
  simp [BitVec.toNat_ofNat, Nat.mod_eq_of_lt (show n < 4294967296 by omega)]

/-- Helper: a digit is not whitespace. -/
theorem digit_not_ws (c : Char) (h : isDigitChar c = true) : isWsChar c = false := by
  simp only [isDigitChar, Bool.and_eq_true, decide_eq_true_eq] at h
  simp only [isWsChar, Bool.or_eq_false_iff, decide_eq_false_iff_not]
  omega

/-- Helper: lowering fixes a digit. -/
theorem lowerChar_digit (c : Char) (h : isDigitChar c = true) : lowerChar c = c := by
  simp only [isDigitChar, Bool.and_eq_true, decide_eq_true_eq] at h
  unfold lowerChar
  rw [if_neg]
  simp only [Bool.and_eq_true, decide_eq_true_eq, not_and]
  omega

/-- Helper: ASCII lowering is idempotent. -/
theorem lowerChar_idem (c : Char) : lowerChar (lowerChar c) = lowerChar c := by
  unfold lowerChar
  by_cases h : (65 ≤ c.toNat && c.toNat ≤ 90) = true
  · rw [if_pos h]
    simp only [Bool.and_eq_true, decide_eq_true_eq] at h
    have ht : (Char.ofNat (c.toNat + 32)).toNat = c.toNat + 32 :=
      toNat_ofNat_small _ (by omega)
    rw [if_neg]
    simp only [ht, Bool.and_eq_true, decide_eq_true_eq, not_and]
    omega
  · rw [if_neg h, if_neg h]

/-- Helper: lowering a list twice is lowering it once. -/
theorem lowerStr_idem (l : List Char) : lowerStr (lowerStr l) = lowerStr l := by
  unfold lowerStr
  rw [List.map_map]
  exact List.map_congr_left (fun c _ => lowerChar_idem c)

/-- Helper: lowering fixes a list of digits. -/
theorem lowerStr_digits (l : List Char) (h : ∀ c ∈ l, isDigitChar c = true) :
    lowerStr l = l := by
  induction l with
  | nil => rfl
  | cons c cs ih =>
    simp only [lowerStr, List.map_cons]
    rw [lowerChar_digit c (h c (List.mem_cons_self c cs))]
    have hrest := ih (fun d hd => h d (List.mem_cons_of_mem c hd))
    simp only [lowerStr] at hrest
    rw [hrest]

/-- Helper: `takeWhile` passes over a block the predicate accepts. -/
theorem takeWhile_append_all (p : Char → Bool) (l r : List Char)
    (h : ∀ c ∈ l, p c = true) :
    (l ++ r).takeWhile p = l ++ r.takeWhile p := by
  induction l with
  | nil => rfl
  | cons c cs ih =>
    simp only [List.cons_append, List.takeWhile_cons, h c (List.mem_cons_self c cs)]
    rw [ih (fun d hd => h d (List.mem_cons_of_mem c hd))]
    simp

/-- Helper: `dropWhile` consumes a block the predicate accepts. -/
theorem dropWhile_append_all (p : Char → Bool) (l r : List Char)
    (h : ∀ c ∈ l, p c = true) :
    (l ++ r).dropWhile p = r.dropWhile p := by
  induction l with
  | nil => rfl
  | cons c cs ih =>
    simp only [List.cons_append, List.dropWhile_cons, h c (List.mem_cons_self c cs)]
    exact ih (fun d hd => h d (List.mem_cons_of_mem c hd))

/-- Helper: stripping is the identity on a text with no surrounding
whitespace. -/
theorem stripWs_eq_self (l : List Char)
    (h1 : ∀ c, l.head? = some c → isWsChar c = false)
    (h2 : ∀ c, l.getLast? = some c → isWsChar c = false) :
    stripWs l = l := by
  cases l with
  | nil => rfl
  | cons a t =>
    unfold stripWs stripEnd
    rw [List.dropWhile_cons, h1 a rfl]
    simp only [Bool.false_eq_true, if_false]
    rcases hrev : (a :: t).reverse with _ | ⟨b, rb⟩
    · exact absurd hrev (by simp)
    · have hb : isWsChar b = false := by
        apply h2
        rw [← List.head?_reverse, hrev]
        rfl
      rw [List.dropWhile_cons_of_neg (by simp [hb]), ← hrev,
        List.reverse_reverse]

/-- Helper: `dropWhile` is the identity when the head is not accepted. -/
theorem dropWhile_eq_self_of_head (p : Char → Bool) (l : List Char)
    (h : ∀ c, l.head? = some c → p c = false) : l.dropWhile p = l := by
  cases l with
  | nil => rfl
  | cons a t => exact List.dropWhile_cons_of_neg (by simp [h a rfl])

/-- Helper: `getLast?` skips a cons onto a nonempty list. -/
theorem getLast?_cons_of_ne_nil (a : Char) (l : List Char) (h : l ≠ []) :
    (a :: l).getLast? = l.getLast? := by
  have he : (a :: l) = [a] ++ l := rfl
  rw [he, List.getLast?_append_of_ne_nil _ h]

/-- Helper: the anchored interval match on a canonical token
`every <digits> <unit>` yields exactly the digit group and the unit token
the matcher finds at the unit position. -/
theorem matchIntervalAt_canonical (d : Char) (ds' u tok : List Char)
    (hd : isDigitChar d = true)
    (hdig : ∀ c ∈ ds', isDigitChar c = true)
    (huhead : ∀ c, u.head? = some c → isWsChar c = false)
    (hmu : matchUnit u = some tok) :
    matchIntervalAt ('e' :: 'v' :: 'e' :: 'r' :: 'y' :: ' ' :: ((d :: ds') ++ ' ' :: u)) =
      some (some (natFromDigits (d :: ds')), tok) := by
  have hall : ∀ c ∈ (d :: ds'), isDigitChar c = true := by
    intro c hc
    rcases List.mem_cons.mp hc with h | h
    · subst h; exact hd
    · exact hdig c h
  unfold matchIntervalAt
  have h1 : dropLit "every".data
      ('e' :: 'v' :: 'e' :: 'r' :: 'y' :: ' ' :: ((d :: ds') ++ ' ' :: u)) =
      some (' ' :: ((d :: ds') ++ ' ' :: u)) := by
    simp [dropLit]
  rw [h1]
  dsimp only
  have h2 : List.takeWhile isWsChar (' ' :: ((d :: ds') ++ ' ' :: u)) =
      ' ' :: List.takeWhile isWsChar ((d :: ds') ++ ' ' :: u) :=
    List.takeWhile_cons_of_pos (by decide)
  have h3 : List.dropWhile isWsChar (' ' :: ((d :: ds') ++ ' ' :: u)) =
      (d :: ds') ++ ' ' :: u := by
    rw [List.dropWhile_cons_of_pos (by decide)]
    exact dropWhile_eq_self_of_head _ _
      (by intro c hc; simp at hc; subst hc; exact digit_not_ws d hd)
  rw [if_neg (by rw [h2]; simp)]
  rw [h3]
  have h4 : List.takeWhile isDigitChar ((d :: ds') ++ ' ' :: u) = d :: ds' := by
    rw [takeWhile_append_all _ _ _ hall, List.takeWhile_cons_of_neg (by decide)]
    simp
  have h5 : List.dropWhile isDigitChar ((d :: ds') ++ ' ' :: u) = ' ' :: u := by
    rw [dropWhile_append_all _ _ _ hall, List.dropWhile_cons_of_neg (by decide)]
  have h6 : List.dropWhile isWsChar (' ' :: u) = u := by
    rw [List.dropWhile_cons_of_pos (by decide)]
    exact dropWhile_eq_self_of_head _ _ huhead
  rw [h4, h5, h6, hmu]
  dsimp only
  rw [if_neg (by simp)]

/-- Helper: parsing the canonical token `every <digits> <unit>` yields the
digit value and the normalized unit. -/
theorem parse_token (d : Char) (ds' u tok : List Char) (canon : String)
    (hd : isDigitChar d = true) (hdig : ∀ c ∈ ds', isDigitChar c = true)
    (hulow : lowerStr u = u)
    (huhead : ∀ c, u.head? = some c → isWsChar c = false)
    (hulast : ∀ c, u.getLast? = some c → isWsChar c = false)
    (hune : u ≠ [])
    (hmu : matchUnit u = some tok)
    (hnu : normalizeUnit tok = some canon) :
    (parse ⟨'e' :: 'v' :: 'e' :: 'r' :: 'y' :: ' ' :: ((d :: ds') ++ ' ' :: u)⟩).map
        (fun c => (c.interval_value, c.interval_unit)) =
      some (Field.val (natFromDigits (d :: ds') : Int), Field.val canon) := by
  set L := 'e' :: 'v' :: 'e' :: 'r' :: 'y' :: ' ' :: ((d :: ds') ++ ' ' :: u) with hL
  have hlow : lowerStr L = L := by
    rw [hL]
    unfold lowerStr
    simp only [List.map_cons, List.map_append]
    have h2a : lowerChar d = d := lowerChar_digit d hd
    have h2b : List.map lowerChar ds' = ds' := by
      simpa [lowerStr] using lowerStr_digits ds' hdig
    have h4 : List.map lowerChar u = u := by simpa [lowerStr] using hulow
    rw [h2a, h2b, h4]
    rfl
  have hstrip : stripWs L = L := by
    apply stripWs_eq_self
    · intro c hc
      rw [hL] at hc
      simp only [List.head?_cons, Option.some.injEq] at hc
      subst hc
      decide
    · intro c hc
      rw [hL] at hc
      rw [show ('e' :: 'v' :: 'e' :: 'r' :: 'y' :: ' ' :: ((d :: ds') ++ ' ' :: u)) =
        "every ".data ++ ((d :: ds') ++ ' ' :: u) from rfl] at hc
      rw [List.getLast?_append_of_ne_nil _ (by simp),
          List.getLast?_append_of_ne_nil _ (by simp),
          getLast?_cons_of_ne_nil _ _ hune] at hc
      exact hulast c hc
  have htext : normalizeText ⟨L⟩ = L := by
    unfold normalizeText
    show stripWs (lowerStr L) = L
    rw [hlow, hstrip]
  have hsearch : searchInterval L = some (some (natFromDigits (d :: ds')), tok) := by
    rw [hL]
    unfold searchInterval
    rw [matchIntervalAt_canonical d ds' u tok hd hdig huhead hmu]
  have hne : (⟨L⟩ : String).data ≠ [] := by
    show L ≠ []
    rw [hL]
    simp
  simp only [parse]
  rw [if_neg hne, htext, hsearch]
  dsimp only
  rw [hnu]
  dsimp only
  simp

/-- C5: for every nonempty digit string with value at least 1 and every unit
spelling of the alternation, parsing `every <digits> <unit>` succeeds with
exactly that interval value and the unit normalized to its canonical plural
(first conjunct); with the count omitted the value defaults to 1 (second
conjunct); every spelling normalizes to one of the four canonical plurals
(third conjunct); and parsing is case-insensitive — lowering the input does
not change the result (last conjunct). -/
theorem c5_interval_extraction :
    (∀ ds : List Char, ds ≠ [] → (∀ c ∈ ds, isDigitChar c = true) →
      1 ≤ natFromDigits ds →
      ∀ u ∈ unitAlts,
        (parse ⟨"every ".data ++ ds ++ ' ' :: u⟩).map
            (fun c => (c.interval_value, c.interval_unit)) =
          some (Field.val (natFromDigits ds : Int),
                Field.val ((normalizeUnit u).getD "hours"))) ∧
    (∀ u ∈ unitAlts,
      (parse ⟨"every ".data ++ u⟩).map
          (fun c => (c.interval_value, c.interval_unit)) =
        some (Field.val (1 : Int), Field.val ((normalizeUnit u).getD "hours"))) ∧
    (∀ u ∈ unitAlts, ∃ cu, normalizeUnit u = some cu ∧
      cu ∈ (["hours", "minutes", "days", "weeks"] : List String)) ∧
    (∀ s : String, parse s = parse ⟨lowerStr s.data⟩) := by
  refine ⟨?_, ?_, ?_, ?_⟩
  · intro ds hne hdig hpos u hu
    obtain ⟨d, ds', rfl⟩ := List.exists_cons_of_ne_nil hne
    have hd : isDigitChar d = true := hdig d (List.mem_cons_self d ds')
    have hds' : ∀ c ∈ ds', isDigitChar c = true :=
      fun c hc => hdig c (List.mem_cons_of_mem d hc)
    simp only [unitAlts, List.mem_cons, List.not_mem_nil, or_false] at hu
    rcases hu with h | h | h | h | h | h | h | h | h <;> subst h
    · exact parse_token d ds' _ "hour".data "hours" hd hds'
        (by decide) (by decide) (by decide) (by decide) (by decide) (by decide)
    · exact parse_token d ds' _ "hour".data "hours" hd hds'
        (by decide) (by decide) (by decide) (by decide) (by decide) (by decide)
    · exact parse_token d ds' _ "minute".data "minutes" hd hds'
        (by decide) (by decide) (by decide) (by decide) (by decide) (by decide)
    · exact parse_token d ds' _ "minute".data "minutes" hd hds'
        (by decide) (by decide) (by decide) (by decide) (by decide) (by decide)
    · exact parse_token d ds' _ "min".data "minutes" hd hds'
        (by decide) (by decide) (by decide) (by decide) (by decide) (by decide)
    · exact parse_token d ds' _ "day".data "days" hd hds'
        (by decide) (by decide) (by decide) (by decide) (by decide) (by decide)
    · exact parse_token d ds' _ "day".data "days" hd hds'
        (by decide) (by decide) (by decide) (by decide) (by decide) (by decide)
    · exact parse_token d ds' _ "week".data "weeks" hd hds'
        (by decide) (by decide) (by decide) (by decide) (by decide) (by decide)
    · exact parse_token d ds' _ "week".data "weeks" hd hds'
        (by decide) (by decide) (by decide) (by decide) (by decide) (by decide)
  · intro u hu
    simp only [unitAlts, List.mem_cons, List.not_mem_nil, or_false] at hu
    rcases hu with h | h | h | h | h | h | h | h | h <;> subst h <;> decide
  · intro u hu
    simp only [unitAlts, List.mem_cons, List.not_mem_nil, or_false] at hu
    rcases hu with h | h | h | h | h | h | h | h | h <;> subst h
    · exact ⟨"hours", by decide, by decide⟩
    · exact ⟨"hours", by decide, by decide⟩
    · exact ⟨"minutes", by decide, by decide⟩
    · exact ⟨"minutes", by decide, by decide⟩
    · exact ⟨"minutes", by decide, by decide⟩
    · exact ⟨"days", by decide, by decide⟩
    · exact ⟨"days", by decide, by decide⟩
    · exact ⟨"weeks", by decide, by decide⟩
    · exact ⟨"weeks", by decide, by decide⟩
  · intro s
    have htext : normalizeText ⟨lowerStr s.data⟩ = normalizeText s := by
      unfold normalizeText
      show stripWs (lowerStr (lowerStr s.data)) = stripWs (lowerStr s.data)
      rw [lowerStr_idem]
    have hempty : (s.data = []) ↔ ((⟨lowerStr s.data⟩ : String).data = []) := by
      show _ ↔ lowerStr s.data = []
      simp [lowerStr]
    simp only [parse]
    by_cases he : s.data = []
    · rw [if_pos he, if_pos (hempty.mp he)]
    · rw [if_neg he, if_neg (fun h => he (hempty.mpr h)), htext]

/-- Witness for C5: the token conjunct applied at `every 3 hours`. -/
theorem c5_interval_extraction_witness :
    (['3'] ≠ ([] : List Char)) ∧ (∀ c ∈ ['3'], isDigitChar c = true) ∧
    1 ≤ natFromDigits ['3'] ∧
    (parse ⟨"every ".data ++ ['3'] ++ ' ' :: "hours".data⟩).map
        (fun c => (c.interval_value, c.interval_unit)) =
      some (Field.val (natFromDigits ['3'] : Int),
            Field.val ((normalizeUnit "hours".data).getD "hours")) :=
  ⟨by decide, by decide, by decide,
   c5_interval_extraction.1 ['3'] (by decide) (by decide) (by decide)
     "hours".data (by decide)⟩
